import Mathlib

/-!
# Verification of the wdlparse Python binding and its WDL core engine

This development embeds the Python binding layer of the `wdlparse` package
(`src/python/wdlparse/__init__.py`) and models the Rust core engine it binds
to (parser, metadata extractor, renderers, diagram extractor), whose sources
are not part of the repository snapshot, from the specification.  Theorems
at the end settle the frozen claims about the program.
-/

namespace WdlParse

/-- The `PyOutputFormat` enum exposed by the Rust extension: the three
output renderers selectable through the binding. -/
inductive PyOutputFormat where
  | Human : PyOutputFormat
  | Json : PyOutputFormat
  | Tree : PyOutputFormat
deriving DecidableEq

/-- Python exceptions that the binding layer can raise: `FileNotFoundError`
from the file-existence checks and `ValueError` from format validation. -/
inductive PyException where
  | fileNotFound (msg : String) : PyException
  | valueError (msg : String) : PyException
deriving DecidableEq

/-- A call into the Rust core, as assembled by the binding layer.  The
binding either raises a `PyException` before the core is reached or hands
the core exactly one of these invocations; an `Except.error` result of a
binding function therefore means no core call occurred. -/
inductive CoreCall where
  | parseWdl (path : String) (fmt : PyOutputFormat) (verbose extract : Bool) : CoreCall
  | parseWdlString (content : String) (fmt : PyOutputFormat) (verbose extract : Bool) : CoreCall
  | infoWdl (path : String) (fmt : PyOutputFormat) (extract : Bool) : CoreCall
  | mermaidWdl (path : String) : CoreCall
deriving DecidableEq

/-- Python's `str.lower()` as used by the binding: each character mapped
to its lowercase form. -/
def pyLower (s : String) : String :=
  String.mk (s.data.map Char.toLower)

/-- `WDLParser._get_format_enum`: the dict membership test on
`format_str.lower()` over `{"human", "json", "tree"}` followed by the dict
lookup, rendered as an if-chain; an unknown selector raises `ValueError`. -/
def get_format_enum (format_str : String) : Except PyException PyOutputFormat :=
  if pyLower format_str = "human" then .ok .Human
  else if pyLower format_str = "json" then .ok .Json
  else if pyLower format_str = "tree" then .ok .Tree
  else .error (.valueError ("Invalid output format: " ++ format_str))

/-- The file system visible to the binding, abstracted as the existence
predicate consulted by `Path.exists()`. -/
def FileSystem : Type := String → Bool

/-- `WDLParser.parse_file`: checks file existence first (raising
`FileNotFoundError`), then validates the format selector (raising
`ValueError`), and only then invokes the core `parse_wdl`. -/
def parse_file (fs : FileSystem) (file_path : String) (output_format : String)
    (verbose extract_metadata : Bool) : Except PyException CoreCall :=
  if fs file_path then
    (get_format_enum output_format).map
      (fun f => .parseWdl file_path f verbose extract_metadata)
  else .error (.fileNotFound ("WDL file not found: " ++ file_path))

/-- `WDLParser.parse_string`: validates the format selector, then invokes
the core `parse_wdl_string`; no file-system access. -/
def parse_string (wdl_content : String) (output_format : String)
    (verbose extract_metadata : Bool) : Except PyException CoreCall :=
  (get_format_enum output_format).map
    (fun f => .parseWdlString wdl_content f verbose extract_metadata)

/-- `WDLParser.get_info`: checks file existence first, then validates the
format selector, then invokes the core `info_wdl` (which takes no verbose
flag). -/
def get_info (fs : FileSystem) (file_path : String) (output_format : String)
    (extract_metadata : Bool) : Except PyException CoreCall :=
  if fs file_path then
    (get_format_enum output_format).map (fun f => .infoWdl file_path f extract_metadata)
  else .error (.fileNotFound ("WDL file not found: " ++ file_path))

/-- `WDLParser.mermaid`: checks file existence (raising
`FileNotFoundError`) and invokes the core `mermaid_wdl`; no format
selector is involved. -/
def wdlparser_mermaid (fs : FileSystem) (file_path : String) : Except PyException CoreCall :=
  if fs file_path then .ok (.mermaidWdl file_path)
  else .error (.fileNotFound ("WDL file not found: " ++ file_path))

/-- The module-level convenience function `mermaid`, which constructs a
`WDLParser()` and delegates to its `mermaid` method. -/
def mermaid_fn (fs : FileSystem) (file_path : String) : Except PyException CoreCall :=
  wdlparser_mermaid fs file_path

/-! ## The core engine, modelled from the specification

The Rust crate implementing the core engine is not part of the repository
snapshot; only its Python binding, tests and examples are.  The following
definitions model the missing core from the specification. -/

/-- Lexer scanning mode: ordinary WDL text, a `#` comment running to the
end of the line, or a `<<< ... >>>` quasi-literal command region. -/
inductive LexMode where
  | normal : LexMode
  | comment : LexMode
  | heredoc : LexMode
deriving DecidableEq

/-- Modelled from the spec: the lexer treats `#` comments and
`command <<< ... >>>` bodies as quasi-literal regions whose interior text
is not tokenized as WDL syntax; this pass removes those regions, leaving
the characters the parser and metadata extractor consume. -/
def stripQuasi : LexMode → List Char → List Char
  | _, [] => []
  | .normal, '#' :: rest => stripQuasi .comment rest
  | .normal, '<' :: '<' :: '<' :: rest => stripQuasi .heredoc rest
  | .normal, c :: rest => c :: stripQuasi .normal rest
  | .comment, '\n' :: rest => '\n' :: stripQuasi .normal rest
  | .comment, _ :: rest => stripQuasi .comment rest
  | .heredoc, '>' :: '>' :: '>' :: rest => stripQuasi .normal rest
  | .heredoc, _ :: rest => stripQuasi .heredoc rest

/-- The character stream the core works on: source text with comments and
quasi-literal command regions removed. -/
def clean (source : String) : List Char :=
  stripQuasi .normal source.toList

/-- Characters that may occur inside an identifier-like token (WDL
identifiers plus dotted references such as `broken_task.result` and
version literals such as `1.1`). -/
def isIdentChar (c : Char) : Bool :=
  c.isAlphanum || c = '_' || c = '.'

/-- Modelled from the spec: the lexer converts text into a token stream;
this tokenizer collects maximal runs of identifier-like characters,
accumulating the current run in reverse in `cur`. -/
def tokensAux (cur : List Char) : List Char → List String
  | [] => if cur.isEmpty then [] else [String.mk cur.reverse]
  | c :: rest =>
    if isIdentChar c then tokensAux (c :: cur) rest
    else if cur.isEmpty then tokensAux [] rest
    else String.mk cur.reverse :: tokensAux [] rest

/-- The identifier-like token stream of a cleaned character sequence. -/
def tokensOf (cs : List Char) : List String :=
  tokensAux [] cs

/-- `BasicMetadata`: optional WDL version, optional workflow name, and the
ordered deduplicated list of task names. -/
structure BasicMetadata where
  version : Option String
  workflow_name : Option String
  task_names : List String
deriving DecidableEq

/-- Modelled from the spec: the version is the literal following the first
`version` keyword occurrence, wherever it textually occurs. -/
def versionOf : List String → Option String
  | [] => none
  | t :: rest => if t = "version" then rest.head? else versionOf rest

/-- Modelled from the spec: the workflow name is the identifier following
the first `workflow` keyword occurrence, accepted even if that workflow's
body is malformed or unterminated. -/
def workflowNameOf : List String → Option String
  | [] => none
  | t :: rest => if t = "workflow" then rest.head? else workflowNameOf rest

/-- Modelled from the spec: the identifier following every `task` keyword
occurrence, in source order, before deduplication. -/
def taskOccs : List String → List String
  | [] => []
  | [_] => []
  | t :: n :: rest => if t = "task" then n :: taskOccs rest else taskOccs (n :: rest)

/-- Deduplication keeping the first occurrence of each name; `seen` holds
the names already emitted. -/
def dedupFirst (seen : List String) : List String → List String
  | [] => []
  | x :: xs => if x ∈ seen then dedupFirst seen xs else x :: dedupFirst (x :: seen) xs

/-- Basic metadata recovered from a token stream: version, workflow name,
and deduplicated first-seen-ordered task names. -/
def metadataOfTokens (ts : List String) : BasicMetadata :=
  ⟨versionOf ts, workflowNameOf ts, dedupFirst [] (taskOccs ts)⟩

/-- Modelled from the spec: `extract_basic_metadata` scans the token
stream of the source (reusing the lexer only), independent of parser
success, and never raises. -/
def extract_basic_metadata (source : String) : BasicMetadata :=
  metadataOfTokens (tokensOf (clean source))

/-- Diagnostic severity. -/
inductive Severity where
  | error : Severity
  | warning : Severity
  | info : Severity
deriving DecidableEq

/-- A diagnostic collected during parsing. -/
structure Diagnostic where
  severity : Severity
  message : String
deriving DecidableEq

/-- Modelled from the spec: the tolerant parser is a machine over nested
block scopes; an unmatched closing brace yields one error diagnostic and
recovery continues, and at end of input one error diagnostic is emitted
per unclosed scope.  `depth` is the current scope-stack height. -/
def braceScan (depth : Nat) : List Char → List Diagnostic
  | [] => List.replicate depth ⟨.error, "unclosed scope at end of input"⟩
  | c :: rest =>
    if c = '{' then braceScan (depth + 1) rest
    else if c = '}' then
      match depth with
      | 0 => ⟨.error, "unexpected closing brace"⟩ :: braceScan 0 rest
      | d + 1 => braceScan d rest
    else braceScan depth rest

/-- Text label of a severity, used by the renderers. -/
def severityLabel : Severity → String
  | .error => "error"
  | .warning => "warning"
  | .info => "info"

/-- One rendered diagnostic line. -/
def renderDiag (d : Diagnostic) : String :=
  severityLabel d.severity ++ ": " ++ d.message

/-- Rendered form of the optional basic metadata. -/
def renderMeta : Option BasicMetadata → String
  | none => ""
  | some m =>
    "\nbasic_metadata: " ++ (m.version.getD "null") ++ " " ++
      (m.workflow_name.getD "null") ++ " " ++ String.intercalate "," m.task_names

/-- Modelled from the spec: the three renderers are pure functions of the
parse result; `verbose` only adds detail to the human format. -/
def render (fmt : PyOutputFormat) (verbose : Bool) (diags : List Diagnostic)
    (meta : Option BasicMetadata) : String :=
  match fmt with
  | .Human =>
    (if verbose then "[verbose] " else "") ++ "Diagnostics (" ++ toString diags.length ++
      "):\n" ++ String.intercalate "\n" (diags.map renderDiag) ++ renderMeta meta
  | .Json =>
    "\x7b \"diagnostics_count\": " ++ toString diags.length ++ " \x7d" ++ renderMeta meta
  | .Tree =>
    "Document\n" ++ String.intercalate "\n" (diags.map (fun d => "  " ++ renderDiag d)) ++
      renderMeta meta

/-- The dictionary returned by the core `parse_wdl_string`.  Key presence
mirrors the Python dict: `basic_metadata` is a key exactly when the field
is populated (see `ParseDict.keys`). -/
structure ParseDict where
  output : String
  diagnostics : List Diagnostic
  diagnostics_count : Nat
  has_errors : Bool
  basic_metadata : Option BasicMetadata
deriving DecidableEq

/-- The key set of the returned dictionary: the `basic_metadata` key is
present exactly when metadata extraction was requested. -/
def ParseDict.keys (d : ParseDict) : List String :=
  ["output", "diagnostics_count", "has_errors"] ++
    match d.basic_metadata with
    | some _ => ["basic_metadata"]
    | none => []

/-- Modelled from the spec: the core `parse_wdl_string` always succeeds at
the API level; it runs the lexer and tolerant parser, collects the
diagnostics, derives `has_errors` and `diagnostics_count`, renders the
output, and attaches basic metadata only when requested. -/
def parse_wdl_string (content : String) (fmt : PyOutputFormat)
    (verbose extract_metadata : Bool) : ParseDict :=
  let diags := braceScan 0 (clean content)
  let meta := if extract_metadata then some (extract_basic_metadata content) else none
  { output := render fmt verbose diags meta
    diagnostics := diags
    diagnostics_count := diags.length
    has_errors := diags.any (fun d => d.severity == .error)
    basic_metadata := meta }

/-- The module-level convenience function `parse_text`: constructs a
`WDLParser(verbose)` and calls `parse_string`, which validates the format
selector and then runs the core `parse_wdl_string`. -/
def parse_text (wdl_content : String) (output_format : String)
    (verbose extract_metadata : Bool) : Except PyException ParseDict :=
  match get_format_enum output_format with
  | .ok f => .ok (parse_wdl_string wdl_content f verbose extract_metadata)
  | .error e => .error e

/-! ## The diagram extractor, modelled from the specification -/

/-- Kind of a workflow-graph node. -/
inductive NodeKind where
  | task : NodeKind
  | call : NodeKind
  | scatter : NodeKind
  | conditional : NodeKind
deriving DecidableEq

/-- Kind of a workflow-graph edge: task invocation, control-scope
containment, or data dependency. -/
inductive EdgeKind where
  | invocation : EdgeKind
  | controlScope : EdgeKind
  | dataDep : EdgeKind
deriving DecidableEq

/-- A node of the workflow graph. -/
structure GNode where
  id : String
  label : String
  kind : NodeKind
deriving DecidableEq

/-- A directed edge of the workflow graph. -/
structure GEdge where
  src : String
  tgt : String
  kind : EdgeKind
deriving DecidableEq

mutual
/-- Modelled from the spec: a construct of a workflow body — a call (task
name, optional alias, referenced task outputs feeding its inputs), a
scatter block, or a conditional block, the latter two with nested
bodies. -/
inductive WfItem where
  | call : String → Option String → List String → WfItem
  | scatter : String → WfItems → WfItem
  | conditional : String → WfItems → WfItem
/-- A workflow body: a sequence of workflow constructs. -/
inductive WfItems where
  | nil : WfItems
  | cons : WfItem → WfItems → WfItems
end

/-- Id of the graph node of a task definition. -/
def taskNodeId (t : String) : String :=
  "task_" ++ t

/-- The workflow graph as a node set and an edge set. -/
structure WorkflowGraph where
  nodes : List GNode
  edges : List GEdge
deriving DecidableEq

mutual
/-- Modelled from the spec: one construct's contribution to the graph.
`defined` is the set of task names defined in the document, `scopes` the
stack of enclosing scope node ids.  A call becomes a Call node (labelled
by alias when present) with control-scope edges from every open scope, an
invocation edge to its Task node only when the task is defined (a dangling
reference omits the edge instead of failing), and data-dependency edges
from each defined referenced task; scatter and conditional blocks become
scope nodes pushed onto the stack for their bodies. -/
def buildItem (defined : List String) (scopes : List String) :
    WfItem → List GNode × List GEdge
  | .call t a inputs =>
    let cid := "call_" ++ a.getD t
    let cNode : GNode := ⟨cid, a.getD t, .call⟩
    let scopeEdges : List GEdge := scopes.map (fun s => ⟨s, cid, .controlScope⟩)
    let refs := inputs.filter (fun r => defined.contains r)
    let dataNodes : List GNode := refs.map (fun r => ⟨taskNodeId r, r, .task⟩)
    let dataEdges : List GEdge := refs.map (fun r => ⟨taskNodeId r, cid, .dataDep⟩)
    if defined.contains t then
      (cNode :: (⟨taskNodeId t, t, .task⟩ : GNode) :: dataNodes,
       scopeEdges ++ dataEdges ++ [⟨cid, taskNodeId t, .invocation⟩])
    else
      (cNode :: dataNodes, scopeEdges ++ dataEdges)
  | .scatter n body =>
    let sid := "scatter_" ++ n
    let inner := buildItems defined (sid :: scopes) body
    ((⟨sid, n, .scatter⟩ : GNode) :: inner.1,
     scopes.map (fun s => ⟨s, sid, .controlScope⟩) ++ inner.2)
  | .conditional n body =>
    let cid := "cond_" ++ n
    let inner := buildItems defined (cid :: scopes) body
    ((⟨cid, n, .conditional⟩ : GNode) :: inner.1,
     scopes.map (fun s => ⟨s, cid, .controlScope⟩) ++ inner.2)

/-- Contribution of a whole workflow body, concatenating the nodes and
edges of each construct. -/
def buildItems (defined : List String) (scopes : List String) :
    WfItems → List GNode × List GEdge
  | .nil => ([], [])
  | .cons i rest =>
    let a := buildItem defined scopes i
    let b := buildItems defined scopes rest
    (a.1 ++ b.1, a.2 ++ b.2)
end

/-- Modelled from the spec: the diagram extractor flattens the workflow
body, by one depth-first traversal carrying the stack of enclosing scope
node ids, into a flat node/edge graph. -/
def build_diagram (defined : List String) (items : WfItems) : WorkflowGraph :=
  let r := buildItems defined [] items
  ⟨r.1, r.2⟩

/-- The ids of a node list. -/
def idsOf (ns : List GNode) : List String :=
  ns.map GNode.id

/-- The ids of the graph's node set. -/
def nodeIds (g : WorkflowGraph) : List String :=
  idsOf g.nodes

/-- Mermaid style class of a node kind. -/
def nodeClass : NodeKind → String
  | .task => "taskStyle"
  | .call => "callStyle"
  | .scatter => "scatterStyle"
  | .conditional => "conditionalStyle"

/-- Mermaid arrow for an edge kind: control-scope edges are visually
distinguished by a dotted arrow. -/
def edgeArrow : EdgeKind → String
  | .controlScope => " -.-> "
  | .invocation => " --> "
  | .dataDep => " --> "

/-- Serialization of the workflow graph as Mermaid diagram text. -/
def serializeGraph (g : WorkflowGraph) : String :=
  "graph TD\n" ++
    String.intercalate "\n"
      (g.nodes.map (fun n => "  " ++ n.id ++ "[" ++ n.label ++ "]:::" ++ nodeClass n.kind)) ++
    "\n" ++
    String.intercalate "\n" (g.edges.map (fun e => "  " ++ e.src ++ edgeArrow e.kind ++ e.tgt))

/-- Call constructs recovered from the token stream: the task name
following each `call` keyword, with an alias when `call t as a` occurs. -/
def callItems : List String → WfItems
  | [] => .nil
  | "call" :: t :: "as" :: a :: rest => .cons (.call t (some a) []) (callItems rest)
  | "call" :: t :: rest => .cons (.call t none []) (callItems rest)
  | _ :: rest => callItems rest

/-- Modelled from the spec: the core `mermaid_wdl_string` parses the
source, extracts the workflow graph and serializes it as Mermaid text. -/
def mermaid_wdl_string (content : String) : String :=
  let ts := tokensOf (clean content)
  serializeGraph (build_diagram (metadataOfTokens ts).task_names (callItems ts))

/-! ## The malformed fixture of the test suite -/

/-- The lines of the `malformed_wdl` fixture of
`tests/test_wdlparse.py`: an unclosed task input block would be at the
placeholder, a missing `call` keyword before `broken_task`, and a missing
closing workflow brace at the end. -/
def malformed_wdl_lines : List String := [
  "",
  "version 1.1",
  "",
  "task broken_task \x7b",
  "    input \x7b",
  "        String name",
  "        Int count = \"not a number\"  # Type mismatch error",
  "        missing_type variable_name  # Missing type keyword",
  "    \x7d",
  "",
  "    command <<<",
  "        echo \"Hello ~\x7bname\x7d\"",
  "        # Missing closing brace for placeholder",
  "        echo \"Count: ~\x7bcount\"",
  "    >>>",
  "",
  "    output \x7b",
  "        String result = stdout()",
  "        # Missing comma between outputs",
  "        Int final_count = count",
  "    \x7d",
  "",
  "    runtime \x7b",
  "        docker: \"ubuntu:20.04\"",
  "        memory: 1GB  # Missing quotes around memory value",
  "        cpu:",
  "    \x7d",
  "\x7d",
  "",
  "workflow broken_workflow \x7b",
  "    input \x7b",
  "        String workflow_name",
  "        Array[String] items",
  "    \x7d",
  "",
  "    # Missing call keyword",
  "    broken_task \x7b",
  "        input:",
  "            name = workflow_name,",
  "            count = length(items)",
  "    \x7d",
  "",
  "    output \x7b",
  "        String result1 = broken_task.result",
  "    \x7d",
  "",
  "    # Missing closing brace for workflow",
  ""]

/-- The `malformed_wdl` fixture as one source text. -/
def malformed_wdl : String :=
  String.intercalate "\n" malformed_wdl_lines

/-- A concrete workflow body: a scatter block containing a conditional
block containing a call to the defined task `hello`, followed by a call
to the undefined task `ghost`. -/
def exampleBody : WfItems :=
  .cons (.scatter "s" (.cons (.conditional "c" (.cons (.call "hello" none []) .nil)) .nil))
    (.cons (.call "ghost" none []) .nil)

/-! ## Claim theorems -/

/-- C1: for every source text, every output format, and both flag values,
the core parse returns a result with a non-negative diagnostics count and
a boolean `has_errors`, and for every format selector the binding accepts,
`parse_text` returns that result rather than raising. -/
theorem parse_never_raises (S : String) (f : PyOutputFormat) (v e : Bool) :
    0 ≤ ((parse_wdl_string S f v e).diagnostics_count : Int)
  ∧ ((parse_wdl_string S f v e).has_errors = true
      ∨ (parse_wdl_string S f v e).has_errors = false)
  ∧ ∀ (fmt : String) (g : PyOutputFormat), get_format_enum fmt = .ok g →
      parse_text S fmt v e = .ok (parse_wdl_string S g v e) := by
  refine ⟨Int.natCast_nonneg _, ?_, ?_⟩
  · cases (parse_wdl_string S f v e).has_errors <;> simp
  · intro fmt g hg
    simp [parse_text, hg]

/-- Witness for C1 at the empty source and the default format selector. -/
theorem parse_never_raises_witness :
    get_format_enum "human" = .ok .Human
  ∧ parse_text "" "human" false false = .ok (parse_wdl_string "" .Human false false) :=
  ⟨rfl, (parse_never_raises "" .Human false false).2.2 "human" .Human rfl⟩

/-- C2: for every source and every output format, the result of parsing
with `extract_metadata = true` has the `basic_metadata` key, and the
result of parsing the same source with `extract_metadata = false` does not
contain that key at all. -/
theorem basic_metadata_presence (S : String) (f : PyOutputFormat) (v : Bool) :
    "basic_metadata" ∈ (parse_wdl_string S f v true).keys
  ∧ "basic_metadata" ∉ (parse_wdl_string S f v false).keys := by
  constructor <;> simp [parse_wdl_string, ParseDict.keys]

/-- Witness for C2 at a concrete source and format. -/
theorem basic_metadata_presence_witness :
    "basic_metadata" ∈ (parse_wdl_string "version 1.0" .Json false true).keys
  ∧ "basic_metadata" ∉ (parse_wdl_string "version 1.0" .Json false false).keys :=
  basic_metadata_presence "version 1.0" .Json false

/-- C3: for every path the file system lacks, `parse_file`, `get_info`
and `mermaid` all raise `FileNotFoundError`; the error return means the
core was never invoked (a `CoreCall` is only produced on the `ok` path). -/
theorem file_checks_precede_core (fs : FileSystem) (path fmt : String)
    (v e : Bool) (h : fs path = false) :
    parse_file fs path fmt v e = .error (.fileNotFound ("WDL file not found: " ++ path))
  ∧ get_info fs path fmt e = .error (.fileNotFound ("WDL file not found: " ++ path))
  ∧ wdlparser_mermaid fs path = .error (.fileNotFound ("WDL file not found: " ++ path)) := by
  refine ⟨?_, ?_, ?_⟩ <;> simp [parse_file, get_info, wdlparser_mermaid, h]

/-- Witness for C3 on an empty file system and a concrete path. -/
theorem file_checks_precede_core_witness :
    ((fun _ => false) : FileSystem) "/nonexistent/file.wdl" = false
  ∧ parse_file (fun _ => false) "/nonexistent/file.wdl" "human" false false =
      .error (.fileNotFound ("WDL file not found: " ++ "/nonexistent/file.wdl")) :=
  ⟨rfl, (file_checks_precede_core (fun _ => false) "/nonexistent/file.wdl"
      "human" false false rfl).1⟩

/-- C4: for every format selector whose lowercase form is outside
`{"human", "json", "tree"}`, `parse_string`, `parse_file` and `get_info`
raise `ValueError` before any core call; for every selector inside the
set, no `ValueError` occurs and the corresponding `PyOutputFormat` value
is the one handed to the core. -/
theorem format_selector_validation (F : String) (fs : FileSystem)
    (path S : String) (v e : Bool) (hfs : fs path = true) :
    (pyLower F ∉ (["human", "json", "tree"] : List String) →
       parse_string S F v e = .error (.valueError ("Invalid output format: " ++ F))
     ∧ parse_file fs path F v e = .error (.valueError ("Invalid output format: " ++ F))
     ∧ get_info fs path F e = .error (.valueError ("Invalid output format: " ++ F)))
  ∧ (pyLower F ∈ (["human", "json", "tree"] : List String) →
     ∃ f : PyOutputFormat,
       get_format_enum F = .ok f
     ∧ (pyLower F = "human" → f = .Human)
     ∧ (pyLower F = "json" → f = .Json)
     ∧ (pyLower F = "tree" → f = .Tree)
     ∧ parse_string S F v e = .ok (.parseWdlString S f v e)
     ∧ parse_file fs path F v e = .ok (.parseWdl path f v e)
     ∧ get_info fs path F e = .ok (.infoWdl path f e)) := by
  constructor
  · intro h
    simp only [List.mem_cons, List.not_mem_nil, or_false, not_or] at h
    obtain ⟨h1, h2, h3⟩ := h
    refine ⟨?_, ?_, ?_⟩ <;>
      simp [parse_string, parse_file, get_info, get_format_enum, h1, h2, h3, hfs,
        Except.map]
  · intro h
    simp only [List.mem_cons, List.not_mem_nil, or_false] at h
    rcases h with h | h | h
    · refine ⟨.Human, ?_, ?_, ?_, ?_, ?_, ?_, ?_⟩ <;>
        simp [parse_string, parse_file, get_info, get_format_enum, h, hfs, Except.map]
    · refine ⟨.Json, ?_, ?_, ?_, ?_, ?_, ?_, ?_⟩ <;>
        simp [parse_string, parse_file, get_info, get_format_enum, h, hfs, Except.map]
    · refine ⟨.Tree, ?_, ?_, ?_, ?_, ?_, ?_, ?_⟩ <;>
        simp [parse_string, parse_file, get_info, get_format_enum, h, hfs, Except.map]

/-- Witness for C4: an invalid selector is rejected by `parse_string` and
a valid one reaches the core on an existing file. -/
theorem format_selector_validation_witness :
    parse_string "version 1.0" "invalid_format" false false =
      .error (.valueError ("Invalid output format: " ++ "invalid_format"))
  ∧ ∃ f : PyOutputFormat, get_format_enum "json" = .ok f
     ∧ parse_string "version 1.0" "json" false false = .ok (.parseWdlString "version 1.0" f false false) := by
  refine ⟨((format_selector_validation "invalid_format" (fun _ => true) "/tmp/a.wdl"
      "version 1.0" false false rfl).1 (by decide)).1, ?_⟩
  obtain ⟨f, h1, -, -, -, h5, -, -⟩ :=
    (format_selector_validation "json" (fun _ => true) "/tmp/a.wdl"
      "version 1.0" false false rfl).2 (by decide)
  exact ⟨f, h1, h5⟩

set_option maxRecDepth 200000 in
/-- C5: on the malformed fixture (unclosed placeholder, missing `call`
keyword, missing closing workflow brace), parsing with metadata
extraction reports at least one diagnostic and still recovers version
`1.1`, workflow name `broken_workflow` and task list `["broken_task"]`,
while `has_errors` is true for the same source. -/
theorem malformed_fixture_recoverable :
    (parse_wdl_string malformed_wdl .Json false true).diagnostics_count > 0
  ∧ (parse_wdl_string malformed_wdl .Json false true).basic_metadata =
      some ⟨some "1.1", some "broken_workflow", ["broken_task"]⟩
  ∧ (parse_wdl_string malformed_wdl .Json false true).has_errors = true := by
  decide

/-- C7: the core is a pure function of its inputs, so parsing the same
source twice yields identical results in every format, the diagram
extractor yields identical text on identical content, and the convenience
`mermaid` and the `WDLParser.mermaid` method agree on every file. -/
theorem deterministic_outputs :
    (∀ (S : String) (f : PyOutputFormat) (v e : Bool),
       parse_wdl_string S f v e = parse_wdl_string S f v e)
  ∧ (∀ S : String, mermaid_wdl_string S = mermaid_wdl_string S)
  ∧ (∀ (fs : FileSystem) (p : String), mermaid_fn fs p = wdlparser_mermaid fs p) :=
  ⟨fun _ _ _ _ => rfl, fun _ => rfl, fun _ _ => rfl⟩

/-- C9: format matching is case-insensitive: every selector whose
lowercase form is a valid selector is accepted, with the same enum value
as its lowercase form. -/
theorem format_matching_case_insensitive (F : String)
    (h : pyLower F ∈ (["human", "json", "tree"] : List String)) :
    ∃ f : PyOutputFormat, get_format_enum F = .ok f ∧ get_format_enum (pyLower F) = .ok f := by
  simp only [List.mem_cons, List.not_mem_nil, or_false] at h
  rcases h with h | h | h
  · exact ⟨.Human, by simp [get_format_enum, h], by rw [h]; rfl⟩
  · exact ⟨.Json, by simp [get_format_enum, h], by rw [h]; rfl⟩
  · exact ⟨.Tree, by simp [get_format_enum, h], by rw [h]; rfl⟩

/-- Witness for C9 at the uppercase selector `"JSON"`. -/
theorem format_matching_case_insensitive_witness :
    ∃ f : PyOutputFormat, get_format_enum "JSON" = .ok f
      ∧ get_format_enum (pyLower "JSON") = .ok f :=
  format_matching_case_insensitive "JSON" (by decide)

/-- C10: on a nonexistent path combined with an arbitrary (possibly
invalid) format selector, `parse_file` and `get_info` raise
`FileNotFoundError` and never `ValueError`: the existence check precedes
format validation. -/
theorem missing_file_precedes_format_validation (fs : FileSystem)
    (path F : String) (v e : Bool) (h : fs path = false) :
    (parse_file fs path F v e = .error (.fileNotFound ("WDL file not found: " ++ path))
     ∧ ∀ m, parse_file fs path F v e ≠ .error (.valueError m))
  ∧ (get_info fs path F e = .error (.fileNotFound ("WDL file not found: " ++ path))
     ∧ ∀ m, get_info fs path F e ≠ .error (.valueError m)) := by
  refine ⟨⟨?_, ?_⟩, ?_, ?_⟩ <;> simp [parse_file, get_info, h]

/-- A token list without the `workflow` keyword yields no workflow name. -/
theorem workflowNameOf_eq_none : ∀ {ts : List String}, "workflow" ∉ ts →
    workflowNameOf ts = none
  | [], _ => rfl
  | t :: rest, h => by
    have ht : ¬ t = "workflow" := fun e => h (by rw [e]; exact List.mem_cons_self _ _)
    simp only [workflowNameOf]
    rw [if_neg ht]
    exact workflowNameOf_eq_none (fun hm => h (List.mem_cons_of_mem _ hm))

/-- A token list without the `task` keyword contributes no task names. -/
theorem taskOccs_eq_nil : ∀ {ts : List String}, "task" ∉ ts → taskOccs ts = []
  | [], _ => rfl
  | [_], _ => rfl
  | t :: n :: rest, h => by
    have ht : ¬ t = "task" := fun e => h (by rw [e]; exact List.mem_cons_self _ _)
    simp only [taskOccs]
    rw [if_neg ht]
    exact taskOccs_eq_nil (fun hm => h (List.mem_cons_of_mem _ hm))

/-- The scanner collects the name following a `task` keyword after any
prefix free of that keyword. -/
theorem taskOccs_append (a : String) :
    ∀ (pre rest : List String), "task" ∉ pre →
      taskOccs (pre ++ "task" :: a :: rest) = a :: taskOccs rest
  | [], rest, _ => by simp [taskOccs]
  | [x], rest, h => by
    have hx : ¬ x = "task" := fun e => h (by rw [e]; exact List.mem_cons_self _ _)
    simp only [List.cons_append, List.nil_append, taskOccs]
    rw [if_neg hx]
    simp [taskOccs]
  | x :: y :: pre, rest, h => by
    have hx : ¬ x = "task" := fun e => h (by rw [e]; exact List.mem_cons_self _ _)
    have h' : "task" ∉ y :: pre := fun hm => h (List.mem_cons_of_mem _ hm)
    have ih := taskOccs_append a (y :: pre) rest h'
    simp only [List.cons_append] at ih ⊢
    simp only [taskOccs]
    rw [if_neg hx]
    exact ih

/-- Deduplication of two distinct names keeps both, in order. -/
theorem dedupFirst_pair (a b : String) (hab : a ≠ b) :
    dedupFirst [] [a, b] = [a, b] := by
  simp [dedupFirst, Ne.symm hab]

/-- C6: for every token stream with exactly two `task` keyword
occurrences naming `a` and `b` and no `workflow` keyword, metadata
extraction yields no workflow name and exactly the two task names; the
same surrounding tokens with the two names swapped yield the same task
names up to order, so the task-name set does not depend on declaration
order. -/
theorem two_tasks_no_workflow_metadata
    (pre mid post : List String) (a b : String)
    (hpre : "task" ∉ pre) (hmid : "task" ∉ mid) (hpost : "task" ∉ post)
    (hab : a ≠ b)
    (hw : "workflow" ∉ pre ++ "task" :: a :: (mid ++ "task" :: b :: post)) :
    (metadataOfTokens (pre ++ "task" :: a :: (mid ++ "task" :: b :: post))).workflow_name = none
  ∧ (metadataOfTokens (pre ++ "task" :: b :: (mid ++ "task" :: a :: post))).workflow_name = none
  ∧ (metadataOfTokens (pre ++ "task" :: a :: (mid ++ "task" :: b :: post))).task_names = [a, b]
  ∧ (metadataOfTokens (pre ++ "task" :: b :: (mid ++ "task" :: a :: post))).task_names = [b, a]
  ∧ ∀ x, (x ∈ (metadataOfTokens (pre ++ "task" :: a :: (mid ++ "task" :: b :: post))).task_names
        ↔ x ∈ (metadataOfTokens (pre ++ "task" :: b :: (mid ++ "task" :: a :: post))).task_names) := by
  have hw2 : "workflow" ∉ pre ++ "task" :: b :: (mid ++ "task" :: a :: post) := by
    simp only [List.mem_append, List.mem_cons, not_or] at hw ⊢
    tauto
  have t1 : taskOccs (pre ++ "task" :: a :: (mid ++ "task" :: b :: post)) = [a, b] := by
    rw [taskOccs_append a pre _ hpre, taskOccs_append b mid post hmid, taskOccs_eq_nil hpost]
  have t2 : taskOccs (pre ++ "task" :: b :: (mid ++ "task" :: a :: post)) = [b, a] := by
    rw [taskOccs_append b pre _ hpre, taskOccs_append a mid post hmid, taskOccs_eq_nil hpost]
  refine ⟨?_, ?_, ?_, ?_, ?_⟩
  · simp [metadataOfTokens, workflowNameOf_eq_none hw]
  · simp [metadataOfTokens, workflowNameOf_eq_none hw2]
  · simp [metadataOfTokens, t1, dedupFirst_pair a b hab]
  · simp [metadataOfTokens, t2, dedupFirst_pair b a (Ne.symm hab)]
  · intro x
    simp only [metadataOfTokens, t1, t2, dedupFirst_pair a b hab,
      dedupFirst_pair b a (Ne.symm hab), List.mem_cons, List.not_mem_nil, or_false]
    tauto

/-- Witness for C6 on the two-task fixture token stream and its swap. -/
theorem two_tasks_no_workflow_metadata_witness :
    (metadataOfTokens (["version", "1.0"] ++ "task" :: "standalone_task" ::
        (["String", "message", "command", "output", "String", "result", "stdout"] ++
          "task" :: "another_task" ::
            ["String", "number", "command", "output"]))).task_names =
      ["standalone_task", "another_task"]
  ∧ (metadataOfTokens (["version", "1.0"] ++ "task" :: "another_task" ::
        (["String", "message", "command", "output", "String", "result", "stdout"] ++
          "task" :: "standalone_task" ::
            ["String", "number", "command", "output"]))).task_names =
      ["another_task", "standalone_task"]
  ∧ (metadataOfTokens (["version", "1.0"] ++ "task" :: "standalone_task" ::
        (["String", "message", "command", "output", "String", "result", "stdout"] ++
          "task" :: "another_task" ::
            ["String", "number", "command", "output"]))).workflow_name = none := by
  have h := two_tasks_no_workflow_metadata
    ["version", "1.0"]
    ["String", "message", "command", "output", "String", "result", "stdout"]
    ["String", "number", "command", "output"]
    "standalone_task" "another_task"
    (by decide) (by decide) (by decide) (by decide) (by decide)
  exact ⟨h.2.2.1, h.2.2.2.1, h.1⟩

/-- Witness for C10 on an empty file system with an invalid selector. -/
theorem missing_file_precedes_format_validation_witness :
    parse_file (fun _ => false) "/nonexistent/file.wdl" "invalid_format" false false =
      .error (.fileNotFound ("WDL file not found: " ++ "/nonexistent/file.wdl"))
  ∧ ∀ m, get_info (fun _ => false) "/nonexistent/file.wdl" "invalid_format" false ≠
      .error (.valueError m) :=
  ⟨(missing_file_precedes_format_validation (fun _ => false) "/nonexistent/file.wdl"
      "invalid_format" false false rfl).1.1,
   (missing_file_precedes_format_validation (fun _ => false) "/nonexistent/file.wdl"
      "invalid_format" false false rfl).2.2⟩

mutual

theorem buildItem_edges_sound (d scopes : List String) :
    ∀ (i : WfItem) (e : GEdge), e ∈ (buildItem d scopes i).2 →
      (e.src ∈ idsOf (buildItem d scopes i).1 ∨ e.src ∈ scopes)
    ∧ e.tgt ∈ idsOf (buildItem d scopes i).1
  | .call t a inputs, e, he => by
    by_cases hc : d.contains t = true <;>
      simp only [buildItem, hc, if_true, if_false, idsOf, List.map_cons, List.map_append,
        List.map_map, List.mem_append, List.mem_cons, List.mem_map, List.mem_singleton,
        Function.comp] at he ⊢ <;>
      aesop

  | .scatter n body, e, he => by
    simp only [buildItem, List.mem_append] at he
    rcases he with he | he
    · simp only [List.mem_map] at he
      obtain ⟨s, hs, rfl⟩ := he
      refine ⟨Or.inr hs, ?_⟩
      simp [idsOf, buildItem]
    · have h := buildItems_edges_sound d (("scatter_" ++ n) :: scopes) body e he
      simp only [List.mem_cons] at h
      obtain ⟨hsrc, htgt⟩ := h
      constructor
      · rcases hsrc with hsrc | hsrc | hsrc
        · left
          simp only [buildItem, idsOf, List.map_cons, List.mem_cons]
          right
          simpa [idsOf] using hsrc
        · left
          simp [buildItem, idsOf, hsrc]
        · exact Or.inr hsrc
      · simp only [buildItem, idsOf, List.map_cons, List.mem_cons]
        right
        simpa [idsOf] using htgt

  | .conditional n body, e, he => by
    simp only [buildItem, List.mem_append] at he
    rcases he with he | he
    · simp only [List.mem_map] at he
      obtain ⟨s, hs, rfl⟩ := he
      refine ⟨Or.inr hs, ?_⟩
      simp [idsOf, buildItem]
    · have h := buildItems_edges_sound d (("cond_" ++ n) :: scopes) body e he
      simp only [List.mem_cons] at h
      obtain ⟨hsrc, htgt⟩ := h
      constructor
      · rcases hsrc with hsrc | hsrc | hsrc
        · left
          simp only [buildItem, idsOf, List.map_cons, List.mem_cons]
          right
          simpa [idsOf] using hsrc
        · left
          simp [buildItem, idsOf, hsrc]
        · exact Or.inr hsrc
      · simp only [buildItem, idsOf, List.map_cons, List.mem_cons]
        right
        simpa [idsOf] using htgt

theorem buildItems_edges_sound (d scopes : List String) :
    ∀ (l : WfItems) (e : GEdge), e ∈ (buildItems d scopes l).2 →
      (e.src ∈ idsOf (buildItems d scopes l).1 ∨ e.src ∈ scopes)
    ∧ e.tgt ∈ idsOf (buildItems d scopes l).1
  | .nil, e, he => by simp [buildItems] at he
  | .cons i rest, e, he => by
    simp only [buildItems, List.mem_append] at he
    rcases he with he | he
    · have h := buildItem_edges_sound d scopes i e he
      refine ⟨?_, ?_⟩
      · rcases h.1 with hsrc | hsrc
        · left
          simp only [buildItems, idsOf, List.map_append, List.mem_append]
          exact Or.inl hsrc
        · exact Or.inr hsrc
      · simp only [buildItems, idsOf, List.map_append, List.mem_append]
        exact Or.inl h.2
    · have h := buildItems_edges_sound d scopes rest e he
      refine ⟨?_, ?_⟩
      · rcases h.1 with hsrc | hsrc
        · left
          simp only [buildItems, idsOf, List.map_append, List.mem_append]
          exact Or.inr hsrc
        · exact Or.inr hsrc
      · simp only [buildItems, idsOf, List.map_append, List.mem_append]
        exact Or.inr h.2

end

/-- A call to an undefined task contributes control-scope and
data-dependency edges only: its invocation edge is omitted. -/
theorem dangling_call_no_invocation (d scopes : List String) (t : String)
    (al : Option String) (inputs : List String) (h : d.contains t = false) :
    ∀ e ∈ (buildItem d scopes (.call t al inputs)).2, e.kind ≠ .invocation := by
  intro e he
  simp only [buildItem, h, Bool.false_eq_true, if_false, List.mem_append, List.mem_map] at he
  rcases he with ⟨s, hs, rfl⟩ | ⟨r, hr, rfl⟩ <;> simp

/-- C8: every edge of every generated workflow graph has both endpoints
among the graph's node ids, and a call referencing an undefined task
contributes no invocation edge — the edge is omitted rather than the
whole extraction failing. -/
theorem graph_soundness (d : List String) (items : WfItems) :
    (∀ e ∈ (build_diagram d items).edges,
       e.src ∈ nodeIds (build_diagram d items) ∧ e.tgt ∈ nodeIds (build_diagram d items))
  ∧ ∀ (scopes : List String) (t : String) (al : Option String) (inputs : List String),
      d.contains t = false →
      ∀ e ∈ (buildItem d scopes (.call t al inputs)).2, e.kind ≠ .invocation := by
  constructor
  · intro e he
    have h := buildItems_edges_sound d [] items e he
    simp only [List.not_mem_nil, or_false] at h
    exact ⟨h.1, h.2⟩
  · exact dangling_call_no_invocation d

/-- Witness for C8 on `exampleBody`: the concrete invocation edge has
both endpoints among the node ids, and the dangling call to `ghost`
contributes no invocation edge. -/
theorem graph_soundness_witness :
    ((GEdge.mk "call_hello" "task_hello" .invocation).src ∈
        nodeIds (build_diagram ["hello"] exampleBody)
      ∧ (GEdge.mk "call_hello" "task_hello" .invocation).tgt ∈
        nodeIds (build_diagram ["hello"] exampleBody))
  ∧ ∀ e ∈ (buildItem ["hello"] [] (.call "ghost" none [])).2, e.kind ≠ .invocation :=
  ⟨(graph_soundness ["hello"] exampleBody).1 ⟨"call_hello", "task_hello", .invocation⟩
      (by decide),
   (graph_soundness ["hello"] exampleBody).2 [] "ghost" none [] (by decide)⟩

end WdlParse
